import Mathlib

/-!
Verification of the chunked audio-transcription pipeline
(`src/utils/transcriber.py`, `src/utils/seamless_transcriber.py`,
`src/utils/diarizer.py`, `src/utils/exporter.py`).

The Python code is shallowly embedded: floating-point second/confidence
values are modelled as exact rationals `ℚ` (the code only adds, divides
and compares them; `exp` is kept as an explicit function parameter so the
embedding stays executable), Python exceptions become `Except`, and the
per-chunk retry `for`-loop becomes structural recursion on the number of
remaining loop iterations.
-/

namespace AudioTranscriber

/-- A transcript segment (the dicts built in `WhisperTranscriber.transcribe`
and `SeamlessTranscriber.transcribe`): `start`/`end` seconds, text, and a
confidence whose numeric type is a parameter (`ℚ` for the merge pipeline,
`ℝ` where `math.exp` is involved).  The Python key `end` is spelled `stop`. -/
structure Segment (α : Type) where
  start : ℚ
  stop : ℚ
  text : String
  confidence : α
deriving DecidableEq

/-- The dict returned by `transcribe` / `transcribe_chunked`:
keys `text`, `language`, `confidence`, `segments`. -/
structure TranscriptionResult (α : Type) where
  text : String
  language : String
  confidence : α
  segments : List (Segment α)
deriving DecidableEq

/-- Outcome of one call to `self.transcribe` on a chunk, as observed by the
retry loop in `WhisperTranscriber.transcribe_chunked`: either a result or an
`APIStatusError` with its HTTP status code. -/
inductive AttemptOutcome where
  | success (result : TranscriptionResult ℚ)
  | apiError (status : ℕ)
deriving DecidableEq

/-- Exceptions that can escape `WhisperTranscriber.transcribe_chunked`:
the re-raised `APIStatusError` (line 191) or the
`RuntimeError("Failed to transcribe chunk {i} ...")` (line 194), which
carries the 1-based chunk index. -/
inductive PyError where
  | apiStatusError (status : ℕ)
  | chunkTranscriptionFailed (chunkIndex : ℕ)
deriving DecidableEq

deriving instance DecidableEq for Except

/-- `max_retries` in `transcribe_chunked` (transcriber.py line 173). -/
def maxRetries : ℕ := 5

/-- The retry `for attempt in range(1, max_retries + 1)` loop of
`WhisperTranscriber.transcribe_chunked` (lines 175-191), recursing on the
number of loop iterations still available.  Returns the chunk result
(`none` models `chunk_result` still being `None` after the loop, which is
what the fuel-0 base case produces) together with the accumulated
`time.sleep` seconds. -/
def retryLoopFuel (att : ℕ → AttemptOutcome) :
    ℕ → ℕ → ℕ → Except PyError (Option (TranscriptionResult ℚ) × ℕ)
  | 0, _, slept => .ok (none, slept)
  | fuel + 1, attempt, slept =>
    match att attempt with
    | .success r => .ok (some r, slept)
    | .apiError st =>
      if 500 ≤ st ∧ attempt < maxRetries then
        retryLoopFuel att fuel (attempt + 1) (slept + 2 ^ attempt)
      else
        .error (.apiStatusError st)

/-- The whole retry loop for one chunk, started at attempt 1 with
`max_retries` iterations available. -/
def retryChunk (att : ℕ → AttemptOutcome) (slept : ℕ) :
    Except PyError (Option (TranscriptionResult ℚ) × ℕ) :=
  retryLoopFuel att maxRetries 1 slept

/-- Timestamp rewriting of `transcribe_chunked` (transcriber.py lines
197-199, seamless_transcriber.py lines 159-161): add the cumulative offset
to every segment's `start` and `end`. -/
def offsetSegs (off : ℚ) (segs : List (Segment ℚ)) : List (Segment ℚ) :=
  segs.map fun s => { s with start := s.start + off, stop := s.stop + off }

/-- The per-chunk loop of `WhisperTranscriber.transcribe_chunked` (lines
163-205).  `i` is the 1-based loop index, `off` the running `time_offset`,
`slept` the accumulated backoff seconds.  The offset update mirrors
`if i < len(chunk_durations): time_offset += chunk_durations[i-1]`. -/
def runChunks (durations : List ℚ) :
    List (ℕ → AttemptOutcome) → ℕ → ℚ → ℕ →
    Except PyError (List (TranscriptionResult ℚ) × ℕ)
  | [], _, _, slept => .ok ([], slept)
  | att :: rest, i, off, slept =>
    match retryChunk att slept with
    | .error e => .error e
    | .ok (none, _) => .error (.chunkTranscriptionFailed i)
    | .ok (some r, slept') =>
      match runChunks durations rest (i + 1)
          (if i < durations.length then off + durations.getD (i - 1) 0 else off)
          slept' with
      | .error e => .error e
      | .ok (results, sleptF) =>
        .ok ({ r with segments := offsetSegs off r.segments } :: results, sleptF)

/-- The merge step of `WhisperTranscriber.transcribe_chunked`
(lines 207-225). -/
def mergeResults (results : List (TranscriptionResult ℚ)) : TranscriptionResult ℚ :=
  { text := String.intercalate " " (results.map (·.text))
    language := match results with
      | [] => "unknown"
      | r :: _ => r.language
    confidence :=
      if results.isEmpty then 0
      else (results.map (·.confidence)).sum / (results.length : ℚ)
    segments := (results.map (·.segments)).flatten }

/-- `WhisperTranscriber.transcribe_chunked` end to end: per-chunk retry
loop with offset rewriting, then merge.  Also returns the total backoff
seconds slept. -/
def transcribeChunked (chunks : List (ℕ → AttemptOutcome)) (durations : List ℚ) :
    Except PyError (TranscriptionResult ℚ × ℕ) :=
  match runChunks durations chunks 1 0 0 with
  | .error e => .error e
  | .ok (results, slept) => .ok (mergeResults results, slept)

/-- The per-chunk loop of `SeamlessTranscriber.transcribe_chunked` (lines
147-166): no retry, same offset bookkeeping.  (The `is not None` guards on
lines 160-161 are vacuous in this embedding since timestamps are always
present.) -/
def seamlessChunks (durations : List ℚ) :
    List (TranscriptionResult ℚ) → ℕ → ℚ → List (TranscriptionResult ℚ)
  | [], _, _ => []
  | r :: rest, i, off =>
    { r with segments := offsetSegs off r.segments } ::
      seamlessChunks durations rest (i + 1)
        (if i < durations.length then off + durations.getD (i - 1) 0 else off)

/-- The merge step of `SeamlessTranscriber.transcribe_chunked` (lines
168-181): like the Whisper merge but with the fixed confidence `0.95`. -/
def seamlessMerge (results : List (TranscriptionResult ℚ)) : TranscriptionResult ℚ :=
  { text := String.intercalate " " (results.map (·.text))
    language := match results with
      | [] => "unknown"
      | r :: _ => r.language
    confidence := 0.95
    segments := (results.map (·.segments)).flatten }

/-- `SeamlessTranscriber.transcribe_chunked` on already-computed per-chunk
results. -/
def seamlessTranscribeChunked (results : List (TranscriptionResult ℚ))
    (durations : List ℚ) : TranscriptionResult ℚ :=
  seamlessMerge (seamlessChunks durations results 1 0)

/-- A chunk whose first transcription attempt succeeds with result `r`
(no backend failures). -/
def succeedChunk (r : TranscriptionResult ℚ) : ℕ → AttemptOutcome :=
  fun _ => .success r

/-- Modelled from the spec: "offset(chunk *i*) = sum of nominal durations
of chunks `0..i-1`; offset(chunk 0) = 0".  Chunk at 0-based position `k`
gets every segment offset by the sum of the first `k` durations. -/
def specOffsets (durations : List ℚ) (k : ℕ) :
    List (TranscriptionResult ℚ) → List (TranscriptionResult ℚ)
  | [] => []
  | r :: rest =>
    { r with segments := offsetSegs ((durations.take k).sum) r.segments } ::
      specOffsets durations (k + 1) rest

lemma specOffsets_getElem? (durations : List ℚ) :
    ∀ (results : List (TranscriptionResult ℚ)) (j k : ℕ),
      (specOffsets durations j results)[k]? =
        (results[k]?).map fun r : TranscriptionResult ℚ =>
          { r with segments := offsetSegs ((durations.take (j + k)).sum) r.segments } := by
  intro results
  induction results with
  | nil => intro j k; simp [specOffsets]
  | cons r rest ih =>
    intro j k
    cases k with
    | zero => simp [specOffsets]
    | succ k' =>
      simp only [specOffsets, List.getElem?_cons_succ]
      have harith : j + (k' + 1) = j + 1 + k' := by omega
      rw [harith, ih (j + 1) k']

lemma runChunks_succeed (durations : List ℚ) :
    ∀ (results : List (TranscriptionResult ℚ)) (i : ℕ) (off : ℚ) (slept : ℕ),
      1 ≤ i → i - 1 + results.length ≤ durations.length →
      off = (durations.take (i - 1)).sum →
      runChunks durations (results.map succeedChunk) i off slept =
        .ok (specOffsets durations (i - 1) results, slept) := by
  intro results
  induction results with
  | nil => intro i off slept _ _ _; simp [runChunks, specOffsets]
  | cons r rest ih =>
    intro i off slept hi hlen hoff
    simp only [List.map_cons, runChunks, retryChunk, maxRetries, retryLoopFuel, succeedChunk]
    rcases rest with _ | ⟨r2, rest'⟩
    · simp [runChunks, specOffsets, hoff]
    · have hilt : i < durations.length := by
        simp only [List.length_cons] at hlen; omega
      have hrec := ih (i + 1)
        (off + durations.getD (i - 1) 0) slept (by omega)
        (by simp only [List.length_cons] at hlen ⊢; omega)
        (by
          have h1 : i - 1 < durations.length := by omega
          have : (durations.take (i - 1 + 1)).sum =
              (durations.take (i - 1)).sum + durations[i - 1] :=
            List.sum_take_succ durations (i - 1) h1
          have hgetD : durations.getD (i - 1) 0 = durations[i - 1] :=
            List.getD_eq_getElem durations 0 h1
          have hidx : i + 1 - 1 = i - 1 + 1 := by omega
          rw [hidx, this, hoff, hgetD])
      rw [if_pos hilt, hrec]
      simp only [specOffsets, hoff]
      have hidx : i + 1 - 1 = i - 1 + 1 := by omega
      rw [hidx]

lemma seamlessChunks_succeed (durations : List ℚ) :
    ∀ (results : List (TranscriptionResult ℚ)) (i : ℕ) (off : ℚ),
      1 ≤ i → i - 1 + results.length ≤ durations.length →
      off = (durations.take (i - 1)).sum →
      seamlessChunks durations results i off = specOffsets durations (i - 1) results := by
  intro results
  induction results with
  | nil => intro i off _ _ _; simp [seamlessChunks, specOffsets]
  | cons r rest ih =>
    intro i off hi hlen hoff
    simp only [seamlessChunks, specOffsets, hoff]
    rcases rest with _ | ⟨r2, rest'⟩
    · simp [seamlessChunks, specOffsets]
    · have hilt : i < durations.length := by
        simp only [List.length_cons] at hlen; omega
      have hrec := ih (i + 1)
        ((durations.take (i - 1)).sum + durations.getD (i - 1) 0) (by omega)
        (by simp only [List.length_cons] at hlen ⊢; omega)
        (by
          have h1 : i - 1 < durations.length := by omega
          have hsum : (durations.take (i - 1 + 1)).sum =
              (durations.take (i - 1)).sum + durations[i - 1] :=
            List.sum_take_succ durations (i - 1) h1
          have hgetD : durations.getD (i - 1) 0 = durations[i - 1] :=
            List.getD_eq_getElem durations 0 h1
          have hidx : i + 1 - 1 = i - 1 + 1 := by omega
          rw [hidx, hsum, hgetD])
      rw [if_pos hilt, hrec]
      have hidx : i + 1 - 1 = i - 1 + 1 := by omega
      rw [hidx]

/-- C1: with at least as many nominal durations as chunks, a chunked run
over per-chunk results `results` offsets chunk `k`'s segments by the sum of
durations `0..k-1` (offset `0` for chunk `0`), for both the Whisper and the
Seamless orchestrator; merged segments are the concatenation of the
per-chunk offset segment lists; and in the concrete 3×480 s scenario a
segment `{start:10, end:20}` of chunk index 2 merges to
`{start:970, end:980}`. -/
theorem chunked_offsets_correct
    (results : List (TranscriptionResult ℚ)) (durations : List ℚ)
    (h : results.length ≤ durations.length) :
    transcribeChunked (results.map succeedChunk) durations =
      .ok (mergeResults (specOffsets durations 0 results), 0)
    ∧ seamlessTranscribeChunked results durations =
      seamlessMerge (specOffsets durations 0 results)
    ∧ (∀ k, (specOffsets durations 0 results)[k]? =
        (results[k]?).map fun r : TranscriptionResult ℚ =>
          { r with segments := offsetSegs ((durations.take k).sum) r.segments })
    ∧ (mergeResults (specOffsets durations 0 results)).segments =
        ((specOffsets durations 0 results).map (·.segments)).flatten
    ∧ transcribeChunked
        ([⟨"a", "en", 1, []⟩, ⟨"b", "en", 1, []⟩,
          ⟨"c", "en", 1, [⟨10, 20, "x", 1⟩]⟩].map succeedChunk)
        [480, 480, 480] =
      .ok (⟨"a b c", "en", 1, [⟨970, 980, "x", 1⟩]⟩, 0) := by
  refine ⟨?_, ?_, ?_, rfl, ?_⟩
  · have := runChunks_succeed durations results 1 0 0 (by omega) (by omega) (by simp)
    simp only [transcribeChunked, this]
  · have := seamlessChunks_succeed durations results 1 0 (by omega) (by omega) (by simp)
    simp only [seamlessTranscribeChunked, this]
  · intro k
    have := specOffsets_getElem? durations results 0 k
    simpa using this
  · simp only [transcribeChunked, runChunks, retryChunk, maxRetries, retryLoopFuel,
      succeedChunk, offsetSegs, mergeResults, List.map_cons, List.map_nil]
    norm_num [String.intercalate, List.intersperse]
    decide

/-- Witness for C1 at a concrete 3-chunk, 3-duration input. -/
theorem chunked_offsets_correct_witness :
    transcribeChunked
        ([⟨"a", "en", 1, []⟩, ⟨"b", "en", 1, []⟩,
          ⟨"c", "en", 1, [⟨10, 20, "x", 1⟩]⟩].map succeedChunk)
        [480, 480, 480] =
      .ok (⟨"a b c", "en", 1, [⟨970, 980, "x", 1⟩]⟩, 0) :=
  (chunked_offsets_correct
      [⟨"a", "en", 1, []⟩, ⟨"b", "en", 1, []⟩, ⟨"c", "en", 1, [⟨10, 20, "x", 1⟩]⟩]
      [480, 480, 480] (by decide)).2.2.2.2

lemma offsetSegs_zero (l : List (Segment ℚ)) : offsetSegs 0 l = l := by
  simp only [offsetSegs]
  induction l with
  | nil => rfl
  | cons s rest ih =>
    rw [List.map_cons, ih]
    cases s
    simp

/-- One unfolding step of the retry loop. -/
lemma retryLoopFuel_step (att : ℕ → AttemptOutcome) (fuel attempt slept : ℕ) :
    retryLoopFuel att (fuel + 1) attempt slept =
      match att attempt with
      | .success r => .ok (some r, slept)
      | .apiError st =>
        if 500 ≤ st ∧ attempt < maxRetries then
          retryLoopFuel att fuel (attempt + 1) (slept + 2 ^ attempt)
        else .error (.apiStatusError st) := rfl

lemma retryLoopFuel_allFail (att : ℕ → AttemptOutcome) (st : ℕ → ℕ)
    (hf : ∀ a, 1 ≤ a → a ≤ 5 → att a = .apiError (st a) ∧ 500 ≤ st a) :
    ∀ fuel attempt slept, attempt + fuel = 6 → 1 ≤ attempt → attempt ≤ 5 →
      retryLoopFuel att fuel attempt slept = .error (.apiStatusError (st 5)) := by
  intro fuel
  induction fuel with
  | zero => intro attempt slept h1 h2 h3; omega
  | succ f ih =>
    intro attempt slept h1 h2 h3
    have ha := hf attempt h2 h3
    rw [retryLoopFuel_step]
    simp only [ha.1]
    by_cases hlast : attempt < maxRetries
    · rw [if_pos ⟨ha.2, hlast⟩]
      exact ih (attempt + 1) (slept + 2 ^ attempt) (by omega) (by omega)
        (by simp only [maxRetries] at hlast; omega)
    · have h5 : attempt = 5 := by simp only [maxRetries] at hlast; omega
      rw [if_neg (fun hc => hlast hc.2), h5]

/-- The whole retry loop on a chunk whose every attempt fails with a
5xx status re-raises the status error of the final attempt. -/
lemma retryChunk_allFail (att : ℕ → AttemptOutcome) (st : ℕ → ℕ)
    (hf : ∀ a, 1 ≤ a → a ≤ 5 → att a = .apiError (st a) ∧ 500 ≤ st a) (slept : ℕ) :
    retryChunk att slept = .error (.apiStatusError (st 5)) :=
  retryLoopFuel_allFail att st hf maxRetries 1 slept (by norm_num [maxRetries])
    (by omega) (by norm_num [maxRetries])

lemma runChunks_error_after_prefix (durations : List ℚ)
    (att : ℕ → AttemptOutcome) (st : ℕ → ℕ) (post : List (ℕ → AttemptOutcome))
    (hf : ∀ a, 1 ≤ a → a ≤ 5 → att a = .apiError (st a) ∧ 500 ≤ st a) :
    ∀ (pre : List (TranscriptionResult ℚ)) (i : ℕ) (off : ℚ) (slept : ℕ),
      runChunks durations (pre.map succeedChunk ++ att :: post) i off slept =
        .error (.apiStatusError (st 5)) := by
  intro pre
  induction pre with
  | nil =>
    intro i off slept
    simp only [List.map_nil, List.nil_append, runChunks,
      retryChunk_allFail att st hf slept]
  | cons r rest ih =>
    intro i off slept
    simp only [List.map_cons, List.cons_append, runChunks, retryChunk, maxRetries,
      retryLoopFuel, succeedChunk, List.append_eq]
    rw [ih (i + 1) (if i < durations.length then off + durations.getD (i - 1) 0 else off) slept]

/-- C2 (amended): a chunk whose 5 attempts all fail with 5xx statuses
aborts the whole run by re-raising the final attempt's `APIStatusError`
(status ≥ 500); no result is returned for any chunk.  (The code never
raises a chunk-indexed error here: the `RuntimeError` carrying the chunk
index is unreachable.) -/
theorem chunk_failure_aborts_run
    (pre : List (TranscriptionResult ℚ)) (att : ℕ → AttemptOutcome) (st : ℕ → ℕ)
    (post : List (ℕ → AttemptOutcome)) (durations : List ℚ)
    (hf : ∀ a, 1 ≤ a → a ≤ 5 → att a = .apiError (st a) ∧ 500 ≤ st a) :
    transcribeChunked (pre.map succeedChunk ++ att :: post) durations =
      .error (.apiStatusError (st 5))
    ∧ 500 ≤ st 5
    ∧ ∀ result slept,
        transcribeChunked (pre.map succeedChunk ++ att :: post) durations ≠
          .ok (result, slept) := by
  have hrun := runChunks_error_after_prefix durations att st post hf pre 1 0 0
  refine ⟨by simp only [transcribeChunked, hrun], (hf 5 (by omega) (by omega)).2, ?_⟩
  intro result slept
  simp only [transcribeChunked, hrun]
  intro hcontra
  exact Except.noConfusion hcontra

/-- Witness for C2's amended theorem at a concrete input. -/
theorem chunk_failure_aborts_run_witness :
    transcribeChunked [fun _ => .apiError 503] [480] =
      .error (.apiStatusError 503) :=
  (chunk_failure_aborts_run [] (fun _ => .apiError 503) (fun _ => 503) [] [480]
    (fun a _ _ => ⟨rfl, by norm_num⟩)).1

/-- C2 counterexample to the claim as stated: a run whose only chunk fails
with a 5xx status on all 5 attempts fails with the propagated
`APIStatusError`, not with a chunk-indexed `ChunkTranscriptionFailed`
error for any chunk index. -/
theorem chunk_failure_counterexample :
    transcribeChunked [fun _ => .apiError 500] [480] =
      .error (.apiStatusError 500)
    ∧ ¬ ∃ j, transcribeChunked [fun _ => .apiError 500] [480] =
        .error (.chunkTranscriptionFailed j) := by
  have h : transcribeChunked [fun _ => .apiError 500] [480] =
      .error (.apiStatusError 500) :=
    (chunk_failure_aborts_run [] (fun _ => .apiError 500) (fun _ => 500) [] [480]
      (fun a _ _ => ⟨rfl, by norm_num⟩)).1
  refine ⟨h, ?_⟩
  rintro ⟨j, hj⟩
  rw [h] at hj
  simp at hj

/-- C3: per-chunk retry behavior of `transcribe_chunked`: three 5xx
failures followed by success on attempt 4 yield success with total
backoff 2 + 4 + 8 = 14 seconds and no error surfaced, both at the retry
loop and at the whole run; a non-5xx failure propagates immediately on
the first attempt without any retry. -/
theorem retry_backoff_policy
    (att : ℕ → AttemptOutcome) (st : ℕ → ℕ) (r : TranscriptionResult ℚ)
    (hfail : ∀ a, 1 ≤ a → a ≤ 3 → att a = .apiError (st a) ∧ 500 ≤ st a)
    (hsucc : att 4 = .success r)
    (att' : ℕ → AttemptOutcome) (st' : ℕ)
    (h1' : att' 1 = .apiError st') (hlt : st' < 500)
    (durations : List ℚ) :
    retryChunk att 0 = .ok (some r, 14)
    ∧ transcribeChunked [att] durations = .ok (mergeResults [r], 14)
    ∧ retryChunk att' 0 = .error (.apiStatusError st')
    ∧ transcribeChunked [att'] durations = .error (.apiStatusError st') := by
  have h1 := hfail 1 (by omega) (by omega)
  have h2 := hfail 2 (by omega) (by omega)
  have h3 := hfail 3 (by omega) (by omega)
  have hloop : retryChunk att 0 = .ok (some r, 14) := by
    show retryLoopFuel att (4 + 1) 1 0 = _
    rw [retryLoopFuel_step]
    simp only [h1.1]
    rw [if_pos ⟨h1.2, by norm_num [maxRetries]⟩]
    show retryLoopFuel att (3 + 1) 2 (0 + 2 ^ 1) = _
    rw [retryLoopFuel_step]
    simp only [h2.1]
    rw [if_pos ⟨h2.2, by norm_num [maxRetries]⟩]
    show retryLoopFuel att (2 + 1) 3 (0 + 2 ^ 1 + 2 ^ 2) = _
    rw [retryLoopFuel_step]
    simp only [h3.1]
    rw [if_pos ⟨h3.2, by norm_num [maxRetries]⟩]
    show retryLoopFuel att (1 + 1) 4 (0 + 2 ^ 1 + 2 ^ 2 + 2 ^ 3) = _
    rw [retryLoopFuel_step]
    simp only [hsucc]
    norm_num
  have hloop' : retryChunk att' 0 = .error (.apiStatusError st') := by
    show retryLoopFuel att' (4 + 1) 1 0 = _
    rw [retryLoopFuel_step]
    simp only [h1']
    rw [if_neg (fun hc => by omega)]
  refine ⟨hloop, ?_, hloop', ?_⟩
  · simp only [transcribeChunked, runChunks, hloop, offsetSegs_zero]
  · simp only [transcribeChunked, runChunks, hloop']

/-- Witness for C3 at concrete attempt outcomes. -/
theorem retry_backoff_policy_witness :
    retryChunk (fun a => if a ≤ 3 then .apiError 502 else .success ⟨"ok", "en", 1, []⟩) 0 =
      .ok (some ⟨"ok", "en", 1, []⟩, 14)
    ∧ retryChunk (fun _ => .apiError 401) 0 = .error (.apiStatusError 401) := by
  have h := retry_backoff_policy
    (fun a => if a ≤ 3 then .apiError 502 else .success ⟨"ok", "en", 1, []⟩)
    (fun _ => 502) ⟨"ok", "en", 1, []⟩
    (fun a h1 h3 => by simp [if_pos h3])
    (by norm_num)
    (fun _ => .apiError 401) 401 rfl (by omega) []
  exact ⟨h.1, h.2.2.1⟩

/-- C10: an empty chunk list yields an empty-text result with language
`unknown`, confidence 0 (remote) resp. the fixed nominal 0.95 (local),
and no segments — no error is raised. -/
theorem empty_chunklist_result (durations : List ℚ) :
    transcribeChunked [] durations = .ok (⟨"", "unknown", 0, []⟩, 0)
    ∧ seamlessTranscribeChunked [] durations = ⟨"", "unknown", 0.95, []⟩ :=
  ⟨rfl, rfl⟩

/-- C4: the merged result of a non-empty list of per-chunk results (texts
joined with single spaces in order, first chunk's language, unweighted
mean confidence, concatenated segments with within-chunk order kept), for
the Whisper merge, and the Seamless merge (whose fixed 0.95 agrees with
the mean whenever every chunk reports 0.95, which `SeamlessTranscriber.
transcribe` always does). -/
theorem merge_semantics
    (results : List (TranscriptionResult ℚ)) (hne : results ≠ []) :
    (mergeResults results).text = String.intercalate " " (results.map (·.text))
    ∧ (mergeResults results).language = (results.head hne).language
    ∧ (mergeResults results).confidence =
        (results.map (·.confidence)).sum / (results.length : ℚ)
    ∧ (mergeResults results).segments = (results.map (·.segments)).flatten
    ∧ (seamlessMerge results).text = String.intercalate " " (results.map (·.text))
    ∧ (seamlessMerge results).language = (results.head hne).language
    ∧ (seamlessMerge results).segments = (results.map (·.segments)).flatten
    ∧ ((∀ x ∈ results, x.confidence = 0.95) →
        (seamlessMerge results).confidence =
          (results.map (·.confidence)).sum / (results.length : ℚ)) := by
  obtain ⟨r, rest, rfl⟩ : ∃ r rest, results = r :: rest := by
    cases results with
    | nil => exact absurd rfl hne
    | cons a l => exact ⟨a, l, rfl⟩
  refine ⟨rfl, rfl, rfl, rfl, rfl, rfl, rfl, ?_⟩
  intro hconf
  have hmap : (r :: rest).map (·.confidence) =
      List.replicate (r :: rest).length (0.95 : ℚ) := by
    rw [List.eq_replicate_iff]
    refine ⟨by simp, ?_⟩
    intro b hb
    obtain ⟨x, hx, rfl⟩ := List.mem_map.mp hb
    exact hconf x hx
  have hlen : ((r :: rest).length : ℚ) ≠ 0 := Nat.cast_ne_zero.mpr (by simp)
  rw [hmap, List.sum_replicate, nsmul_eq_mul, mul_div_cancel_left₀ _ hlen]
  rfl

/-- Witness for C4 at a concrete two-chunk result list. -/
theorem merge_semantics_witness :
    (mergeResults [⟨"a", "en", 0.95, []⟩, ⟨"b", "ms", 0.95, []⟩]).text =
      String.intercalate " "
        ([⟨"a", "en", 0.95, []⟩, ⟨"b", "ms", 0.95, []⟩].map
          (TranscriptionResult.text (α := ℚ)))
    ∧ (seamlessMerge [⟨"a", "en", 0.95, []⟩, ⟨"b", "ms", 0.95, []⟩]).confidence =
        ([⟨"a", "en", 0.95, []⟩, ⟨"b", "ms", 0.95, []⟩].map
          (TranscriptionResult.confidence (α := ℚ))).sum / 2 := by
  have h := merge_semantics [⟨"a", "en", 0.95, []⟩, ⟨"b", "ms", 0.95, []⟩] (by simp)
  refine ⟨h.1, ?_⟩
  have h2 := h.2.2.2.2.2.2.2 (by
    intro x hx
    simp only [List.mem_cons, List.not_mem_nil, or_false] at hx
    rcases hx with rfl | rfl <;> rfl)
  simpa using h2

/-- The `lang_map` dict of `SeamlessTranscriber.transcribe` (lines 59-65),
keyed by the optional two-letter code (the Python dict has a `None`
key). -/
def langMap : List (Option String × String) :=
  [(some "en", "eng"), (some "ms", "zsm"), (some "zh", "cmn"), (some "ta", "tam"),
   (some "id", "ind"), (some "th", "tha"), (some "vi", "vie"), (some "ja", "jpn"),
   (some "ko", "kor"), (some "ar", "arb"), (some "hi", "hin"), (some "es", "spa"),
   (some "fr", "fra"), (some "de", "deu"), (some "it", "ita"), (some "pt", "por"),
   (none, "eng")]

/-- `tgt_lang = lang_map.get(language, language if language else 'eng')`
(seamless_transcriber.py line 66): dict lookup with a default that is the
code itself when truthy and `'eng'` otherwise. -/
def tgtLang (language : Option String) : String :=
  match langMap.find? (fun p => p.1 == language) with
  | some p => p.2
  | none =>
    match language with
    | some l => if l = "" then "eng" else l
    | none => "eng"

/-- C7 counterexample to the claim as stated: the unmapped two-letter code
`"xx"` is not replaced by the fixed fallback tag `"eng"` — it is passed
through unchanged. -/
theorem lang_fallback_counterexample :
    tgtLang (some "xx") = "xx"
    ∧ tgtLang (some "xx") ≠ "eng"
    ∧ ∀ p ∈ langMap, p.1 ≠ some "xx" := by decide

/-- C7 (amended): codes in the lookup table map to their three-letter
tags; a missing language (`none`, or the falsy empty string) falls back
to the fixed default `"eng"`; but an unmapped non-empty code is passed
through unchanged rather than replaced by the default. -/
theorem lang_mapping_behavior :
    (∀ p ∈ langMap, tgtLang p.1 = p.2)
    ∧ tgtLang none = "eng"
    ∧ tgtLang (some "") = "eng"
    ∧ ∀ l : String, (∀ p ∈ langMap, p.1 ≠ some l) → l ≠ "" →
        tgtLang (some l) = l := by
  refine ⟨by decide, by decide, by decide, ?_⟩
  intro l hl hne
  have hfind : langMap.find? (fun p => p.1 == some l) = none := by
    rw [List.find?_eq_none]
    intro p hp
    simp only [beq_iff_eq]
    exact hl p hp
  simp only [tgtLang, hfind, if_neg hne]

/-- Witness for C7's amended theorem: the unmapped code `"sw"` passes
through unchanged. -/
theorem lang_mapping_behavior_witness : tgtLang (some "sw") = "sw" :=
  lang_mapping_behavior.2.2.2 "sw" (by decide) (by decide)

/-- A diarization turn (`diarizer.py` `diarize`): `start`, `end`
(spelled `stop`), `speaker`. -/
structure DiarSeg where
  start : ℚ
  stop : ℚ
  speaker : String
deriving DecidableEq

/-- A transcript segment as consumed by
`align_transcription_with_speakers`: only `start`, `end`, `text` matter. -/
structure TransSeg where
  start : ℚ
  stop : ℚ
  text : String
deriving DecidableEq

/-- The overlap computation of `align_transcription_with_speakers`
(diarizer.py lines 113-115): `max(0, min(ends) - max(starts))`. -/
def segOverlap (t : TransSeg) (d : DiarSeg) : ℚ :=
  max 0 (min t.stop d.stop - max t.start d.start)

/-- The inner `for diar_seg in diarization_segments` loop (lines 108-119)
threading the `(best_speaker, best_overlap)` accumulator; an overlap
replaces the best only when strictly greater. -/
def bestFold (t : TransSeg) : List DiarSeg → Option String × ℚ → Option String × ℚ
  | [], acc => acc
  | d :: rest, (bs, bo) =>
    bestFold t rest
      (if bo < segOverlap t d then (some d.speaker, segOverlap t d) else (bs, bo))

/-- Speaker chosen for one transcript segment (lines 105-126), including
the Python truthiness of `if best_speaker:` (both `None` and the empty
string fall back to `'Unknown'`). -/
def assignSpeaker (diar : List DiarSeg) (t : TransSeg) : String :=
  match bestFold t diar (none, 0) with
  | (some s, _) => if s = "" then "Unknown" else s
  | (none, _) => "Unknown"

/-- `align_transcription_with_speakers`: each transcript segment paired
with its assigned speaker label. -/
def alignTranscriptionWithSpeakers (ts : List TransSeg) (diar : List DiarSeg) :
    List (TransSeg × String) :=
  ts.map fun t => (t, assignSpeaker diar t)

/-- Modelled from the spec: the maximum overlap of a transcript segment
against a diarization timeline (`0` when the timeline is empty). -/
def maxOverlap (t : TransSeg) (diar : List DiarSeg) : ℚ :=
  (diar.map (segOverlap t)).foldr max 0

lemma segOverlap_nonneg (t : TransSeg) (d : DiarSeg) : 0 ≤ segOverlap t d :=
  le_max_left 0 _

lemma le_maxOverlap (t : TransSeg) :
    ∀ (diar : List DiarSeg), ∀ d ∈ diar, segOverlap t d ≤ maxOverlap t diar := by
  intro diar
  induction diar with
  | nil => intro d hd; simp at hd
  | cons d0 rest ih =>
    intro d hd
    rcases List.mem_cons.mp hd with rfl | hmem
    · exact le_max_left _ _
    · exact le_trans (ih d hmem) (le_max_right _ _)

lemma maxOverlap_mem (t : TransSeg) :
    ∀ (diar : List DiarSeg),
      maxOverlap t diar = 0 ∨ ∃ d ∈ diar, segOverlap t d = maxOverlap t diar := by
  intro diar
  induction diar with
  | nil => left; rfl
  | cons d0 rest ih =>
    rcases le_total (segOverlap t d0) (maxOverlap t rest) with hle | hle
    · have hmax : maxOverlap t (d0 :: rest) = maxOverlap t rest :=
        max_eq_right hle
      rcases ih with h0 | ⟨d, hmem, heq⟩
      · left; rw [hmax, h0]
      · right; exact ⟨d, List.mem_cons_of_mem d0 hmem, by rw [heq, hmax]⟩
    · right
      refine ⟨d0, List.mem_cons_self d0 rest, ?_⟩
      exact (max_eq_left hle).symm

lemma bestFold_cases (t : TransSeg) :
    ∀ (ds : List DiarSeg) (bs : Option String) (bo : ℚ),
      ((∀ d ∈ ds, segOverlap t d ≤ bo) ∧ bestFold t ds (bs, bo) = (bs, bo))
      ∨ (∃ k, ∃ hk : k < ds.length,
          bestFold t ds (bs, bo) = (some (ds[k].speaker), segOverlap t ds[k])
          ∧ bo < segOverlap t ds[k]
          ∧ (∀ d ∈ ds, segOverlap t d ≤ segOverlap t ds[k])
          ∧ (∀ j, (hj : j < ds.length) → j < k →
              segOverlap t ds[j] < segOverlap t ds[k])) := by
  intro ds
  induction ds with
  | nil => intro bs bo; left; exact ⟨by simp, rfl⟩
  | cons d rest ih =>
    intro bs bo
    by_cases hd : bo < segOverlap t d
    · have hstep : bestFold t (d :: rest) (bs, bo) =
          bestFold t rest (some d.speaker, segOverlap t d) := by
        simp [bestFold, if_pos hd]
      rcases ih (some d.speaker) (segOverlap t d) with
        ⟨hall, heq⟩ | ⟨k, hk, heq, hgt, hmax, hstrict⟩
      · right
        refine ⟨0, by simp, ?_, by simpa using hd, ?_, ?_⟩
        · rw [hstep, heq]; simp
        · intro d' hd'
          rcases List.mem_cons.mp hd' with rfl | hmem
          · simp
          · simpa using hall d' hmem
        · intro j hj hj0; omega
      · right
        refine ⟨k + 1, by simp only [List.length_cons]; omega, ?_, ?_, ?_, ?_⟩
        · rw [hstep, heq]; simp
        · simp only [List.getElem_cons_succ]; exact lt_trans hd hgt
        · intro d' hd'
          rcases List.mem_cons.mp hd' with rfl | hmem
          · simp only [List.getElem_cons_succ]; exact le_of_lt hgt
          · simp only [List.getElem_cons_succ]; exact hmax d' hmem
        · intro j hj hjk
          cases j with
          | zero =>
            simp only [List.getElem_cons_zero, List.getElem_cons_succ]
            exact hgt
          | succ j' =>
            simp only [List.getElem_cons_succ]
            exact hstrict j' (by simp only [List.length_cons] at hj; omega) (by omega)
    · have hstep : bestFold t (d :: rest) (bs, bo) = bestFold t rest (bs, bo) := by
        simp [bestFold, if_neg hd]
      rcases ih bs bo with ⟨hall, heq⟩ | ⟨k, hk, heq, hgt, hmax, hstrict⟩
      · left
        refine ⟨?_, by rw [hstep, heq]⟩
        intro d' hd'
        rcases List.mem_cons.mp hd' with rfl | hmem
        · exact le_of_not_lt hd
        · exact hall d' hmem
      · right
        refine ⟨k + 1, by simp only [List.length_cons]; omega, ?_, ?_, ?_, ?_⟩
        · rw [hstep, heq]; simp
        · simp only [List.getElem_cons_succ]; exact hgt
        · intro d' hd'
          rcases List.mem_cons.mp hd' with rfl | hmem
          · simp only [List.getElem_cons_succ]
            exact le_trans (le_of_not_lt hd) (le_of_lt hgt)
          · simp only [List.getElem_cons_succ]; exact hmax d' hmem
        · intro j hj hjk
          cases j with
          | zero =>
            simp only [List.getElem_cons_zero, List.getElem_cons_succ]
            exact lt_of_le_of_lt (le_of_not_lt hd) hgt
          | succ j' =>
            simp only [List.getElem_cons_succ]
            exact hstrict j' (by simp only [List.length_cons] at hj; omega) (by omega)

/-- C6: with nonempty speaker labels (as the diarization backend emits),
a transcript segment is assigned the speaker of the diarization segment of
maximum overlap `max 0 (min ends - max starts)`, ties resolved towards the
first such segment in diarization order (the witness index `k` is strictly
below every earlier index's overlap), and the sentinel `Unknown` when the
overlap against every diarization segment is zero; alignment maps each
transcript segment independently. -/
theorem align_speaker_max_overlap (t : TransSeg) (diar : List DiarSeg)
    (hs : ∀ d ∈ diar, d.speaker ≠ "") :
    (maxOverlap t diar = 0 → assignSpeaker diar t = "Unknown")
    ∧ (0 < maxOverlap t diar →
        ∃ k, ∃ hk : k < diar.length,
          segOverlap t diar[k] = maxOverlap t diar
          ∧ (∀ j, (hj : j < diar.length) → j < k →
              segOverlap t diar[j] < maxOverlap t diar)
          ∧ assignSpeaker diar t = diar[k].speaker)
    ∧ (∀ ts : List TransSeg, alignTranscriptionWithSpeakers ts diar =
        ts.map fun x => (x, assignSpeaker diar x)) := by
  rcases bestFold_cases t diar none 0 with
    ⟨hall, heq⟩ | ⟨k, hk, heq, hgt, hmax, hstrict⟩
  · refine ⟨fun _ => by simp [assignSpeaker, heq], fun hpos => ?_, fun ts => rfl⟩
    exfalso
    rcases maxOverlap_mem t diar with h0 | ⟨d, hmem, hdeq⟩
    · rw [h0] at hpos; exact lt_irrefl 0 hpos
    · have h1 : segOverlap t d ≤ 0 := hall d hmem
      rw [hdeq] at h1
      exact absurd (lt_of_lt_of_le hpos h1) (lt_irrefl 0)
  · have hovk : segOverlap t diar[k] = maxOverlap t diar := by
      refine le_antisymm (le_maxOverlap t diar _ (List.getElem_mem hk)) ?_
      rcases maxOverlap_mem t diar with h0 | ⟨d, hmem, hdeq⟩
      · rw [h0]; exact le_of_lt hgt
      · rw [← hdeq]; exact hmax d hmem
    refine ⟨fun h0 => ?_, fun hpos => ⟨k, hk, hovk, ?_, ?_⟩, fun ts => rfl⟩
    · exfalso
      rw [h0] at hovk
      exact absurd (hovk ▸ hgt) (lt_irrefl 0)
    · intro j hj hjk
      rw [← hovk]
      exact hstrict j hj hjk
    · simp only [assignSpeaker, heq]
      rw [if_neg (hs diar[k] (List.getElem_mem hk))]

/-- Witness for C6: a segment spanning 6-8 s against turns 0-5 s and
5-10 s is assigned the second speaker. -/
theorem align_speaker_max_overlap_witness :
    (maxOverlap ⟨6, 8, "hi"⟩ [⟨0, 5, "SPEAKER_00"⟩, ⟨5, 10, "SPEAKER_01"⟩] = 0 →
      assignSpeaker [⟨0, 5, "SPEAKER_00"⟩, ⟨5, 10, "SPEAKER_01"⟩] ⟨6, 8, "hi"⟩ = "Unknown")
    ∧ (0 < maxOverlap ⟨6, 8, "hi"⟩ [⟨0, 5, "SPEAKER_00"⟩, ⟨5, 10, "SPEAKER_01"⟩] →
        ∃ k, ∃ hk : k < ([⟨0, 5, "SPEAKER_00"⟩, ⟨5, 10, "SPEAKER_01"⟩] : List DiarSeg).length,
          segOverlap ⟨6, 8, "hi"⟩ ([⟨0, 5, "SPEAKER_00"⟩, ⟨5, 10, "SPEAKER_01"⟩] : List DiarSeg)[k] =
            maxOverlap ⟨6, 8, "hi"⟩ [⟨0, 5, "SPEAKER_00"⟩, ⟨5, 10, "SPEAKER_01"⟩]
          ∧ (∀ j, (hj : j < ([⟨0, 5, "SPEAKER_00"⟩, ⟨5, 10, "SPEAKER_01"⟩] : List DiarSeg).length) → j < k →
              segOverlap ⟨6, 8, "hi"⟩ ([⟨0, 5, "SPEAKER_00"⟩, ⟨5, 10, "SPEAKER_01"⟩] : List DiarSeg)[j] <
                maxOverlap ⟨6, 8, "hi"⟩ [⟨0, 5, "SPEAKER_00"⟩, ⟨5, 10, "SPEAKER_01"⟩])
          ∧ assignSpeaker [⟨0, 5, "SPEAKER_00"⟩, ⟨5, 10, "SPEAKER_01"⟩] ⟨6, 8, "hi"⟩ =
              ([⟨0, 5, "SPEAKER_00"⟩, ⟨5, 10, "SPEAKER_01"⟩] : List DiarSeg)[k].speaker)
    ∧ (∀ ts : List TransSeg,
        alignTranscriptionWithSpeakers ts [⟨0, 5, "SPEAKER_00"⟩, ⟨5, 10, "SPEAKER_01"⟩] =
          ts.map fun x => (x, assignSpeaker [⟨0, 5, "SPEAKER_00"⟩, ⟨5, 10, "SPEAKER_01"⟩] x)) :=
  align_speaker_max_overlap ⟨6, 8, "hi"⟩ [⟨0, 5, "SPEAKER_00"⟩, ⟨5, 10, "SPEAKER_01"⟩]
    (by decide)

/-- Python `str.strip()` on the underlying character list: drop leading
and trailing whitespace. -/
def stripChars (l : List Char) : List Char :=
  ((l.dropWhile Char.isWhitespace).reverse.dropWhile Char.isWhitespace).reverse

/-- Python `str.strip()`. -/
def pyStrip (s : String) : String := String.mk (stripChars s.data)

/-- A segment of the remote API's `verbose_json` response as read by
`WhisperTranscriber.transcribe` (lines 102-118): `getattr(seg,
'avg_logprob', -1.0)` makes `-1` the sentinel for a missing
log-probability. -/
structure ApiSeg where
  start : ℚ
  stop : ℚ
  text : String
  avg_logprob : ℚ
deriving DecidableEq

/-- One response segment turned into a transcript segment (lines 105-118):
confidence `exp(avg_logprob)`, clamped to 0 at the sentinel.  `e` stands
for `math.exp` restricted to the rational inputs the response carries. -/
def extractSegment (e : ℚ → ℝ) (s : ApiSeg) : Segment ℝ :=
  { start := s.start, stop := s.stop, text := pyStrip s.text,
    confidence := if s.avg_logprob = -1 then 0 else e s.avg_logprob }

/-- The response post-processing of `WhisperTranscriber.transcribe`
(lines 98-138): per-segment confidences, the single-segment fallback for
an empty segment list, and the aggregate confidence
`exp(total_logprob / count)` over the segments whose log-probability is
available (0 when there are none). -/
def extractResult (e : ℚ → ℝ) (respText respLang : String) (segs : List ApiSeg) :
    TranscriptionResult ℝ :=
  if segs.isEmpty then
    { text := respText, language := respLang, confidence := 0,
      segments := [{ start := 0, stop := 0, text := respText, confidence := 0 }] }
  else
    { text := respText, language := respLang,
      confidence :=
        if 0 < (segs.filter (fun s => s.avg_logprob ≠ -1)).length then
          e (((segs.filter (fun s => s.avg_logprob ≠ -1)).map (·.avg_logprob)).sum /
            (((segs.filter (fun s => s.avg_logprob ≠ -1)).length : ℚ)))
        else 0,
      segments := segs.map (extractSegment e) }

/-- C5: each response segment's confidence is `exp(avg_logprob)` clamped
to 0 at the unavailable sentinel; when every log-probability is available
the aggregate confidence is the exponential of the mean log-probability
(mean-then-exponentiate); and this differs from the mean of the
per-segment exponentials at the concrete log-probabilities 0 and -2. -/
theorem confidence_derivation
    (e : ℚ → ℝ) (respText respLang : String) (segs : List ApiSeg)
    (hne : segs ≠ []) :
    (extractResult e respText respLang segs).segments =
      segs.map (fun s =>
        { start := s.start, stop := s.stop, text := pyStrip s.text,
          confidence := if s.avg_logprob = -1 then (0 : ℝ) else e s.avg_logprob })
    ∧ ((∀ s ∈ segs, s.avg_logprob ≠ -1) →
        (extractResult e respText respLang segs).confidence =
          e ((segs.map (·.avg_logprob)).sum / (segs.length : ℚ)))
    ∧ (extractResult (fun q => Real.exp (q : ℝ)) "t" "en"
          [⟨0, 1, "a", 0⟩, ⟨1, 2, "b", -2⟩]).confidence ≠
        (Real.exp 0 + Real.exp (-2)) / 2 := by
  have hconf : ∀ (e' : ℚ → ℝ) (t l : String) (segs' : List ApiSeg),
      segs' ≠ [] → (∀ s ∈ segs', s.avg_logprob ≠ -1) →
      (extractResult e' t l segs').confidence =
        e' ((segs'.map (·.avg_logprob)).sum / (segs'.length : ℚ)) := by
    intro e' t l segs' hne' hall
    have hempty : segs'.isEmpty = false := by
      cases segs' with
      | nil => exact absurd rfl hne'
      | cons a rest => rfl
    have hfilter : segs'.filter (fun s => s.avg_logprob ≠ -1) = segs' :=
      List.filter_eq_self.mpr (fun a ha => by simpa using hall a ha)
    have hlen : 0 < (segs'.filter (fun s => s.avg_logprob ≠ -1)).length := by
      rw [hfilter]
      exact List.length_pos.mpr hne'
    simp only [extractResult, hempty, Bool.false_eq_true, if_false, hfilter]
    rw [if_pos (List.length_pos.mpr hne')]
  refine ⟨?_, hconf e respText respLang segs hne, ?_⟩
  · have hempty : segs.isEmpty = false := by
      cases segs with
      | nil => exact absurd rfl hne
      | cons a rest => rfl
    simp only [extractResult, hempty, Bool.false_eq_true, if_false]
    rfl
  · have hval : (extractResult (fun q => Real.exp (q : ℝ)) "t" "en"
        [⟨0, 1, "a", 0⟩, ⟨1, 2, "b", -2⟩]).confidence = Real.exp (-1) := by
      rw [hconf (fun q => Real.exp (q : ℝ)) "t" "en" [⟨0, 1, "a", 0⟩, ⟨1, 2, "b", -2⟩]
        (by simp)
        (by
          intro s hs
          simp only [List.mem_cons, List.not_mem_nil, or_false] at hs
          rcases hs with rfl | rfl <;> norm_num)]
      norm_num
    rw [hval]
    have h2 : (2 : ℝ) < Real.exp 1 := lt_trans (by norm_num) Real.exp_one_gt_d9
    have hmul : Real.exp (-1) * Real.exp 1 = 1 := by
      rw [← Real.exp_add]; norm_num
    have hlt : Real.exp (-1) < 1 / 2 := by
      nlinarith [Real.exp_pos 1, Real.exp_pos (-1)]
    have hgt : (1 : ℝ) / 2 < (Real.exp 0 + Real.exp (-2)) / 2 := by
      rw [Real.exp_zero]
      nlinarith [Real.exp_pos (-2)]
    intro heq
    rw [heq] at hlt
    exact absurd (lt_trans hlt hgt) (lt_irrefl _)

/-- Witness for C5 at a concrete two-segment response. -/
theorem confidence_derivation_witness :
    (extractResult (fun q => Real.exp (q : ℝ)) "hello" "en"
        [⟨0, 1, "a", 0⟩, ⟨1, 2, "b", -2⟩]).segments =
      [⟨0, 1, "a", Real.exp ((0 : ℚ) : ℝ)⟩, ⟨1, 2, "b", Real.exp ((-2 : ℚ) : ℝ)⟩] := by
  have h := (confidence_derivation (fun q => Real.exp (q : ℝ)) "hello" "en"
    [⟨0, 1, "a", 0⟩, ⟨1, 2, "b", -2⟩] (by simp)).1
  rw [h]
  have ha : pyStrip "a" = "a" := by decide
  have hb : pyStrip "b" = "b" := by decide
  simp only [List.map_cons, List.map_nil, ha, hb]
  norm_num

/-- Zero-pad a digit string on the left to width `w` (no-op when already
long enough). -/
def padZeros (w : ℕ) (s : String) : String :=
  String.mk (List.replicate (w - s.length) '0') ++ s

/-- Python's `f"{n:0w}"` int formatting: zero-pad to width `w`, with the
minus sign ahead of the padding for negatives and no truncation when the
number needs more than `w` characters. -/
def pyPad (w : ℕ) (n : ℤ) : String :=
  if n < 0 then "-" ++ padZeros (w - 1) (Nat.repr n.natAbs)
  else padZeros w (Nat.repr n.toNat)

/-- Python `int(x)`: truncation toward zero. -/
def ratTrunc (q : ℚ) : ℤ := if q < 0 then -⌊-q⌋ else ⌊q⌋

/-- `total_ms = int(td.total_seconds() * 1000)` of `format_timestamp_srt`
(exporter.py line 22), with the float seconds value carried as an exact
rational. -/
def totalMsOf (seconds : ℚ) : ℤ := ratTrunc (seconds * 1000)

/-- `format_timestamp_srt` (exporter.py lines 11-28): split `total_ms`
into hours/minutes/seconds/milliseconds with Python's floor division and
modulo, then format as `{hours:02}:{minutes:02}:{secs:02},{ms:03}`. -/
def formatTimestampSrt (seconds : ℚ) : String :=
  pyPad 2 ((totalMsOf seconds).fdiv 3600000) ++ ":" ++
  pyPad 2 (((totalMsOf seconds).fmod 3600000).fdiv 60000) ++ ":" ++
  pyPad 2 (((totalMsOf seconds).fmod 60000).fdiv 1000) ++ "," ++
  pyPad 3 ((totalMsOf seconds).fmod 1000)

/-- The four lines appended for one SRT entry (exporter.py lines 52-55). -/
def srtEntry (idx : ℕ) (s : Segment ℚ) : List String :=
  [Nat.repr idx,
   formatTimestampSrt s.start ++ " --> " ++ formatTimestampSrt s.stop,
   pyStrip s.text, ""]

/-- The `for idx, segment in enumerate(segments, start=1)` loop of
`export_srt` (lines 44-55): blank-after-strip segments are skipped with
`continue`, but `idx` keeps counting them. -/
def srtLinesFrom : ℕ → List (Segment ℚ) → List String
  | _, [] => []
  | idx, s :: rest =>
    if pyStrip s.text = "" then srtLinesFrom (idx + 1) rest
    else srtEntry idx s ++ srtLinesFrom (idx + 1) rest

/-- The list of lines `export_srt` joins with newlines and writes. -/
def exportSrtLines (segs : List (Segment ℚ)) : List String := srtLinesFrom 1 segs

/-- One output line of `export_txt` (lines 82-86). -/
def txtLine (includeTs : Bool) (s : Segment ℚ) : String :=
  if includeTs then "[" ++ formatTimestampSrt s.start ++ "] " ++ pyStrip s.text
  else pyStrip s.text

/-- The segment loop of `export_txt` (lines 77-86): blank-after-strip
segments are skipped. -/
def exportTxtLines (includeTs : Bool) : List (Segment ℚ) → List String
  | [] => []
  | s :: rest =>
    if pyStrip s.text = "" then exportTxtLines includeTs rest
    else txtLine includeTs s :: exportTxtLines includeTs rest

/-- Modelled from the spec: the segments paired with their 1-based
positions in the input list (`enumerate(segments, start=1)`). -/
def indexedFrom (i : ℕ) : List (Segment ℚ) → List (ℕ × Segment ℚ)
  | [] => []
  | s :: rest => (i, s) :: indexedFrom (i + 1) rest

lemma srtLinesFrom_eq (segs : List (Segment ℚ)) :
    ∀ i, srtLinesFrom i segs =
      (((indexedFrom i segs).filter (fun p => pyStrip p.2.text ≠ "")).map
        (fun p => srtEntry p.1 p.2)).flatten := by
  induction segs with
  | nil => intro i; rfl
  | cons s rest ih =>
    intro i
    by_cases h : pyStrip s.text = ""
    · simp only [srtLinesFrom, if_pos h, indexedFrom, List.filter_cons,
        h, ih (i + 1)]
      simp
    · simp only [srtLinesFrom, if_neg h, indexedFrom, List.filter_cons,
        ih (i + 1)]
      have hb : decide (pyStrip s.text ≠ "") = true := decide_eq_true h
      simp [hb]

lemma exportTxtLines_eq (b : Bool) (segs : List (Segment ℚ)) :
    exportTxtLines b segs =
      (segs.filter (fun s => pyStrip s.text ≠ "")).map (txtLine b) := by
  induction segs with
  | nil => rfl
  | cons s rest ih =>
    by_cases h : pyStrip s.text = ""
    · simp only [exportTxtLines, if_pos h, List.filter_cons, h, ih]
      simp
    · simp only [exportTxtLines, if_neg h, List.filter_cons, ih]
      have hb : decide (pyStrip s.text ≠ "") = true := decide_eq_true h
      simp [hb]

lemma mem_indexedFrom (p : ℕ × Segment ℚ) :
    ∀ (segs : List (Segment ℚ)) (i : ℕ), p ∈ indexedFrom i segs → p.2 ∈ segs := by
  intro segs
  induction segs with
  | nil => intro i hp; simp [indexedFrom] at hp
  | cons s rest ih =>
    intro i hp
    rcases List.mem_cons.mp hp with rfl | hmem
    · exact List.mem_cons_self _ _
    · exact List.mem_cons_of_mem _ (ih (i + 1) hmem)

/-- C8 (amended): segments whose text is blank after stripping are
excluded from both export formats, and each emitted SRT entry is numbered
by its segment's 1-based position in the input list — so the numbering is
consecutive `1, 2, 3, ...` exactly when no blank segment is skipped. -/
theorem export_blank_filter_and_numbering (b : Bool) (segs : List (Segment ℚ)) :
    exportTxtLines b segs =
      (segs.filter (fun s => pyStrip s.text ≠ "")).map (txtLine b)
    ∧ exportSrtLines segs =
      (((indexedFrom 1 segs).filter (fun p => pyStrip p.2.text ≠ "")).map
        (fun p => srtEntry p.1 p.2)).flatten
    ∧ ((∀ s ∈ segs, pyStrip s.text ≠ "") →
        exportSrtLines segs =
          ((indexedFrom 1 segs).map (fun p => srtEntry p.1 p.2)).flatten) := by
  refine ⟨exportTxtLines_eq b segs, srtLinesFrom_eq segs 1, ?_⟩
  intro hall
  rw [exportSrtLines, srtLinesFrom_eq segs 1]
  congr 1
  apply congrArg
  apply List.filter_eq_self.mpr
  intro p hp
  exact decide_eq_true (hall p.2 (mem_indexedFrom p segs 1 hp))

/-- C8 counterexample to the claim as stated: with a whitespace-only
first segment, the only emitted SRT entry is numbered `2`, not `1` — the
numbering of emitted entries is not the consecutive `1, 2, 3, ...`. -/
theorem srt_numbering_counterexample :
    exportSrtLines [⟨0, 1, " ", 1⟩, ⟨1, 2, "hi", 1⟩] =
      ["2", "00:00:01,000 --> 00:00:02,000", "hi", ""]
    ∧ (exportSrtLines [⟨0, 1, " ", 1⟩, ⟨1, 2, "hi", 1⟩]).head? ≠ some "1" := by
  have hm1 : totalMsOf 1 = 1000 := by norm_num [totalMsOf, ratTrunc]
  have hm2 : totalMsOf 2 = 2000 := by norm_num [totalMsOf, ratTrunc]
  have h1 : formatTimestampSrt 1 = "00:00:01,000" := by
    simp only [formatTimestampSrt, hm1]; decide
  have h2 : formatTimestampSrt 2 = "00:00:02,000" := by
    simp only [formatTimestampSrt, hm2]; decide
  have hlines : exportSrtLines [⟨0, 1, " ", 1⟩, ⟨1, 2, "hi", 1⟩] =
      ["2", "00:00:01,000 --> 00:00:02,000", "hi", ""] := by
    simp only [exportSrtLines, srtLinesFrom, srtEntry]
    rw [if_pos (by decide : pyStrip " " = "")]
    rw [if_neg (by decide : ¬ pyStrip "hi" = "")]
    simp only [srtLinesFrom, h1, h2]
    decide
  exact ⟨hlines, by rw [hlines]; decide⟩

/-- Witness for C8's amended theorem at a concrete list with a blank
segment. -/
theorem export_blank_filter_and_numbering_witness :
    exportTxtLines false [⟨0, 1, " ", 1⟩, ⟨1, 2, "hi", 1⟩] =
      (([⟨0, 1, " ", 1⟩, ⟨1, 2, "hi", 1⟩] :
          List (Segment ℚ)).filter (fun s => pyStrip s.text ≠ "")).map (txtLine false)
    ∧ exportSrtLines [⟨0, 1, " ", 1⟩, ⟨1, 2, "hi", 1⟩] =
      (((indexedFrom 1 [⟨0, 1, " ", 1⟩, ⟨1, 2, "hi", 1⟩]).filter
          (fun p => pyStrip p.2.text ≠ "")).map
        (fun p => srtEntry p.1 p.2)).flatten :=
  ⟨(export_blank_filter_and_numbering false [⟨0, 1, " ", 1⟩, ⟨1, 2, "hi", 1⟩]).1,
   (export_blank_filter_and_numbering false [⟨0, 1, " ", 1⟩, ⟨1, 2, "hi", 1⟩]).2.1⟩

lemma pyPad2_digits :
    ∀ n : ℕ, n < 100 →
      (pyPad 2 (n : ℤ)).data.length = 2 ∧ ∀ c ∈ (pyPad 2 (n : ℤ)).data, c.isDigit := by
  decide

set_option maxRecDepth 8000 in
lemma pyPad3_digits :
    ∀ n : ℕ, n < 1000 →
      (pyPad 3 (n : ℤ)).data.length = 3 ∧ ∀ c ∈ (pyPad 3 (n : ℤ)).data, c.isDigit := by
  decide

lemma fdiv_cast (a b : ℕ) : ((a : ℤ)).fdiv ((b : ℕ) : ℤ) = ((a / b : ℕ) : ℤ) :=
  (Int.ofNat_fdiv a b).symm

lemma fmod_cast (a b : ℕ) : ((a : ℤ)).fmod ((b : ℕ) : ℤ) = ((a % b : ℕ) : ℤ) :=
  (Int.ofNat_fmod a b).symm

/-- C9 (amended): for nonnegative seconds values below 100 hours
(360000 s), the SRT timestamp has exactly the shape `HH:MM:SS,mmm` — two
digit characters, a colon, two digits, a colon, two digits, a comma,
three digits — and `format_timestamp_srt(3661.5) = "01:01:01,500"`.
(At 360000 s and beyond the hour field grows past two digits.) -/
theorem srt_timestamp_shape (s : ℚ) (h0 : 0 ≤ s) (hub : s < 360000) :
    (∃ l1 l2 l3 l4 : List Char,
      (formatTimestampSrt s).data = l1 ++ ':' :: (l2 ++ ':' :: (l3 ++ ',' :: l4))
      ∧ l1.length = 2 ∧ l2.length = 2 ∧ l3.length = 2 ∧ l4.length = 3
      ∧ ∀ c ∈ l1 ++ l2 ++ l3 ++ l4, c.isDigit)
    ∧ formatTimestampSrt (3661.5 : ℚ) = "01:01:01,500" := by
  constructor
  · have hq0 : (0 : ℚ) ≤ s * 1000 := by nlinarith
    have ht : totalMsOf s = ⌊s * 1000⌋ := by
      simp only [totalMsOf, ratTrunc, if_neg (not_lt.mpr hq0)]
    have ht0 : 0 ≤ totalMsOf s := by
      rw [ht]; exact Int.floor_nonneg.mpr hq0
    have htub : totalMsOf s < 360000000 := by
      rw [ht]
      apply Int.floor_lt.mpr
      push_cast
      nlinarith
    have hmt : ((totalMsOf s).toNat : ℤ) = totalMsOf s := Int.toNat_of_nonneg ht0
    set m : ℕ := (totalMsOf s).toNat with hm
    have hmub : m < 360000000 := by omega
    have hform : formatTimestampSrt s =
        pyPad 2 ((m / 3600000 : ℕ) : ℤ) ++ ":" ++
        pyPad 2 ((m % 3600000 / 60000 : ℕ) : ℤ) ++ ":" ++
        pyPad 2 ((m % 60000 / 1000 : ℕ) : ℤ) ++ "," ++
        pyPad 3 ((m % 1000 : ℕ) : ℤ) := by
      simp only [formatTimestampSrt]
      rw [← hmt]
      simp only [show (3600000 : ℤ) = ((3600000 : ℕ) : ℤ) from by norm_cast,
        show (60000 : ℤ) = ((60000 : ℕ) : ℤ) from by norm_cast,
        show (1000 : ℤ) = ((1000 : ℕ) : ℤ) from by norm_cast,
        fdiv_cast, fmod_cast]
    have hd1 := pyPad2_digits (m / 3600000) (by omega)
    have hd2 := pyPad2_digits (m % 3600000 / 60000) (by omega)
    have hd3 := pyPad2_digits (m % 60000 / 1000) (by omega)
    have hd4 := pyPad3_digits (m % 1000) (by omega)
    refine ⟨(pyPad 2 ((m / 3600000 : ℕ) : ℤ)).data,
      (pyPad 2 ((m % 3600000 / 60000 : ℕ) : ℤ)).data,
      (pyPad 2 ((m % 60000 / 1000 : ℕ) : ℤ)).data,
      (pyPad 3 ((m % 1000 : ℕ) : ℤ)).data,
      ?_, hd1.1, hd2.1, hd3.1, hd4.1, ?_⟩
    · rw [hform]
      have hcolon : (":" : String).data = [':'] := by decide
      have hcomma : ("," : String).data = [','] := by decide
      simp [String.data_append, hcolon, hcomma]
    · intro c hc
      rcases List.mem_append.mp hc with hc' | h4'
      · rcases List.mem_append.mp hc' with hc'' | h3'
        · rcases List.mem_append.mp hc'' with h1' | h2'
          · exact hd1.2 c h1'
          · exact hd2.2 c h2'
        · exact hd3.2 c h3'
      · exact hd4.2 c h4'
  · have hm : totalMsOf (3661.5 : ℚ) = 3661500 := by
      norm_num [totalMsOf, ratTrunc]
    simp only [formatTimestampSrt, hm]
    decide

/-- Witness for C9's amended theorem at `s = 3661.5`. -/
theorem srt_timestamp_shape_witness :
    (∃ l1 l2 l3 l4 : List Char,
      (formatTimestampSrt (3661.5 : ℚ)).data = l1 ++ ':' :: (l2 ++ ':' :: (l3 ++ ',' :: l4))
      ∧ l1.length = 2 ∧ l2.length = 2 ∧ l3.length = 2 ∧ l4.length = 3
      ∧ ∀ c ∈ l1 ++ l2 ++ l3 ++ l4, c.isDigit)
    ∧ formatTimestampSrt (3661.5 : ℚ) = "01:01:01,500" :=
  srt_timestamp_shape (3661.5 : ℚ) (by norm_num) (by norm_num)

/-- C9 counterexample to the claim as stated: at 100 hours the formatter
emits a three-digit hour field, so the output is not of the exact shape
`HH:MM:SS,mmm` (whose character count is 12). -/
theorem srt_format_counterexample :
    formatTimestampSrt 360000 = "100:00:00,000"
    ∧ (formatTimestampSrt 360000).data.length = 13
    ∧ ¬ ∃ l1 l2 l3 l4 : List Char,
        (formatTimestampSrt 360000).data = l1 ++ ':' :: (l2 ++ ':' :: (l3 ++ ',' :: l4))
        ∧ l1.length = 2 ∧ l2.length = 2 ∧ l3.length = 2 ∧ l4.length = 3 := by
  have hm : totalMsOf 360000 = 360000000 := by norm_num [totalMsOf, ratTrunc]
  have hf : formatTimestampSrt 360000 = "100:00:00,000" := by
    simp only [formatTimestampSrt, hm]
    decide
  refine ⟨hf, by rw [hf]; decide, ?_⟩
  rintro ⟨l1, l2, l3, l4, hdata, hl1, hl2, hl3, hl4⟩
  have h13 : (formatTimestampSrt 360000).data.length = 13 := by rw [hf]; decide
  rw [hdata] at h13
  simp only [List.length_append, List.length_cons, hl1, hl2, hl3, hl4] at h13
  omega

end AudioTranscriber
